import Mathlib

/-!
Verification of the SHA-1 core of the Mango multimedia platform
(`source/mango/core/sha1.cpp`), against its natural-language specification.

The generic C++ backend (`generic_sha1_transform`, round helpers `F1`..`F4`)
and the one-shot `mango::sha1` are shallowly embedded over `Nat`:
32-bit machine words become naturals reduced modulo `M32 = 2 ^ 32` at each
wrapping operation, byte buffers become `List Nat` of values below 256, and
the 80-word message-schedule array becomes a function `Nat → Nat` updated
pointwise exactly where the C++ code writes array slots.
-/

namespace Mango

/-- Modulus of 32-bit unsigned arithmetic (`u32` wrap-around). -/
def M32 : Nat := 2 ^ 32

/-- Modulus of 64-bit unsigned arithmetic (`u64` wrap-around). -/
def M64 : Nat := 2 ^ 64

/-- Round constant for rounds 0-19 (`#define K1 0x5A827999`). -/
def K1 : Nat := 0x5A827999

/-- Round constant for rounds 20-39 (`#define K2 0x6ED9EBA1`). -/
def K2 : Nat := 0x6ED9EBA1

/-- Round constant for rounds 40-59 (`#define K3 0x8F1BBCDC`). -/
def K3 : Nat := 0x8F1BBCDC

/-- Round constant for rounds 60-79 (`#define K4 0xCA62C1D6`). -/
def K4 : Nat := 0xCA62C1D6

/-- Modelled from the spec: 32-bit rotate-left (`rotate_left` / `u32_rol`,
an out-of-scope byte/bit primitive of the library).  The low word of the
left shift is combined with the bits rotated around into the low positions. -/
def u32_rol (x n : Nat) : Nat := ((x <<< n) % M32) ||| (x >>> (32 - n))

/-- Modelled from the spec: the library's bitwise select helper used by the
round functions (`u32_select(mask, a, b)` picks, for every bit position, the
bit of `a` where `mask` has a one and the bit of `b` where it has a zero,
computed as `(mask & (a ^ b)) ^ b`). -/
def u32_select (mask a b : Nat) : Nat := (mask &&& (a ^^^ b)) ^^^ b

/-- Modelled from the spec: big-endian 32-bit load (`uload32be`) of four
bytes, most significant byte first. -/
def uload32be (b0 b1 b2 b3 : Nat) : Nat := ((b0 * 256 + b1) * 256 + b2) * 256 + b3

/-- Modelled from the spec: big-endian 64-bit store (`ustore64be`), the eight
bytes of `v`, most significant first. -/
def ustore64be (v : Nat) : List Nat :=
  [v / 2 ^ 56 % 256, v / 2 ^ 48 % 256, v / 2 ^ 40 % 256, v / 2 ^ 32 % 256,
   v / 2 ^ 24 % 256, v / 2 ^ 16 % 256, v / 2 ^ 8 % 256, v % 256]

/-- Modelled from the spec: 32-bit byte swap (`byteswap`), reversing the four
bytes of a `u32`. -/
def byteswap32 (x : Nat) : Nat :=
  x % 256 * 2 ^ 24 + x / 2 ^ 8 % 256 * 2 ^ 16 + x / 2 ^ 16 % 256 * 2 ^ 8 + x / 2 ^ 24 % 256

/-- The five-word SHA-1 digest state (`u32 digest[5]`, registers A..E). -/
structure SHA1State where
  a : Nat
  b : Nat
  c : Nat
  d : Nat
  e : Nat
deriving Repr, DecidableEq

/-- Round helper `F1` (rounds 0-19): `E += u32_select(B, C, D) + msg + K1 +
u32_rol(A, 5); B = u32_rol(B, 30);`.  Returns the updated `(E, B)` pair. -/
def F1 (A B C D E msg : Nat) : Nat × Nat :=
  ((E + (u32_select B C D + msg + K1 + u32_rol A 5)) % M32, u32_rol B 30)

/-- Round helper `F2` (rounds 20-39): `E += (B ^ C ^ D) + msg + K2 +
u32_rol(A, 5); B = u32_rol(B, 30);`. -/
def F2 (A B C D E msg : Nat) : Nat × Nat :=
  ((E + ((B ^^^ C ^^^ D) + msg + K2 + u32_rol A 5)) % M32, u32_rol B 30)

/-- Round helper `F3` (rounds 40-59): `E += u32_select(B ^ C, D, C) + msg +
K3 + u32_rol(A, 5); B = u32_rol(B, 30);`. -/
def F3 (A B C D E msg : Nat) : Nat × Nat :=
  ((E + (u32_select (B ^^^ C) D C + msg + K3 + u32_rol A 5)) % M32, u32_rol B 30)

/-- Round helper `F4` (rounds 60-79): `E += (B ^ C ^ D) + msg + K4 +
u32_rol(A, 5); B = u32_rol(B, 30);`. -/
def F4 (A B C D E msg : Nat) : Nat × Nat :=
  ((E + ((B ^^^ C ^^^ D) + msg + K4 + u32_rol A 5)) % M32, u32_rol B 30)

/-- Five consecutive round-helper calls of `generic_sha1_transform`.  The
source's 80 calls repeat, with period five, the argument rotation
`f(A,B,C,D,E) ; f(E,A,B,C,D) ; f(D,E,A,B,C) ; f(C,D,E,A,B) ; f(B,C,D,E,A)`,
each call updating the registers bound to its second and fifth parameter;
the shadowing let-bindings below reproduce those in-place updates. -/
def round5 (f : Nat → Nat → Nat → Nat → Nat → Nat → Nat × Nat)
    (A B C D E m0 m1 m2 m3 m4 : Nat) : SHA1State :=
  let (E, B) := f A B C D E m0
  let (D, A) := f E A B C D m1
  let (C, E) := f D E A B C m2
  let (B, D) := f C D E A B m3
  let (A, C) := f B C D E A m4
  ⟨A, B, C, D, E⟩

/-- The source's 80 round calls: four stages of four `round5` groups each,
stage 1 using `F1` on `w[0..20)`, stage 2 `F2` on `w[20..40)`, stage 3 `F3`
on `w[40..60)`, stage 4 `F4` on `w[60..80)`.  Each entry pairs the round
helper with the index of the first schedule word it consumes. -/
def roundTable : List ((Nat → Nat → Nat → Nat → Nat → Nat → Nat × Nat) × Nat) :=
  [(F1, 0), (F1, 5), (F1, 10), (F1, 15),
   (F2, 20), (F2, 25), (F2, 30), (F2, 35),
   (F3, 40), (F3, 45), (F3, 50), (F3, 55),
   (F4, 60), (F4, 65), (F4, 70), (F4, 75)]

/-- One group of five round calls reading its message words from `w`. -/
def roundGroupStep (w : Nat → Nat) (s : SHA1State)
    (fi : (Nat → Nat → Nat → Nat → Nat → Nat → Nat × Nat) × Nat) : SHA1State :=
  round5 fi.1 s.a s.b s.c s.d s.e
    (w fi.2) (w (fi.2 + 1)) (w (fi.2 + 2)) (w (fi.2 + 3)) (w (fi.2 + 4))

/-- The 80 compression rounds of one block of `generic_sha1_transform`,
applied to registers `A..E` taken from (and returned as) a `SHA1State`. -/
def sha1_rounds (w : Nat → Nat) (s : SHA1State) : SHA1State :=
  roundTable.foldl (roundGroupStep w) s

/-- `w[i] = uload32be(data + i * 4)`: big-endian load of schedule word `i`
from the block bytes (out-of-range reads are totalized with byte 0; the
`Option`-returning embedding below keeps them explicit). -/
def loadWord (data : List Nat) (i : Nat) : Nat :=
  uload32be (data.getD (i * 4) 0) (data.getD (i * 4 + 1) 0)
    (data.getD (i * 4 + 2) 0) (data.getD (i * 4 + 3) 0)

/-- Pointwise update of the schedule array `u32 w[80]`, modelled as a
function. -/
def updFn (w : Nat → Nat) (i v : Nat) : Nat → Nat :=
  fun j => if j = i then v else w j

/-- One write of the schedule-expansion loop:
`w[k] = u32_rol(w[k - 3] ^ w[k - 8] ^ w[k - 14] ^ w[k - 16], 1)`. -/
def expandAt (w : Nat → Nat) (k : Nat) : Nat → Nat :=
  updFn w k (u32_rol (w (k - 3) ^^^ w (k - 8) ^^^ w (k - 14) ^^^ w (k - 16)) 1)

/-- One iteration of the 8-way unrolled expansion loop, writing
`w[i + 0] .. w[i + 7]`; writes at `i + 3 .. i + 7` read words produced
earlier in the same iteration, exactly as in the source. -/
def scheduleStep (w : Nat → Nat) (i : Nat) : Nat → Nat :=
  expandAt (expandAt (expandAt (expandAt (expandAt (expandAt (expandAt (expandAt
    w (i + 0)) (i + 1)) (i + 2)) (i + 3)) (i + 4)) (i + 5)) (i + 6)) (i + 7)

/-- The 80-word message schedule of one 64-byte block: words `0..15` loaded
big-endian, then the unrolled loop `for (i = 16; i < 80; i += 8)`. -/
def schedule (data : List Nat) : Nat → Nat :=
  [16, 24, 32, 40, 48, 56, 64, 72].foldl scheduleStep
    (fun i => if i < 16 then loadWord data i else 0)

/-- `generic_sha1_transform(digest, data, blocks)`: for each of `blocks`
64-byte blocks, build the schedule, run the 80 rounds, and add the round
registers back into the running state (`digest[k] += register[k]`, which
also re-seeds the registers for the next block). -/
def generic_sha1_transform (st : SHA1State) (data : List Nat) (blocks : Nat) : SHA1State :=
  match blocks with
  | 0 => st
  | n + 1 =>
    let r := sha1_rounds (schedule data) st
    generic_sha1_transform
      ⟨(st.a + r.a) % M32, (st.b + r.b) % M32, (st.c + r.c) % M32,
       (st.d + r.d) % M32, (st.e + r.e) % M32⟩
      (data.drop 64) n

/-- The fixed SHA-1 initialization vector written into `hash.data[0..5)`. -/
def sha1_IV : SHA1State := ⟨0x67452301, 0xefcdab89, 0x98badcfe, 0x10325476, 0xc3d2e1f0⟩

/-- The number of complete blocks fed through the backend:
`u32 size = u32(memory.size); const int block_count = size / 64;`.
The cast to `u32` truncates the 64-bit buffer length modulo `2 ^ 32`. -/
def sha1_block_count (L : Nat) : Nat := L % M32 / 64

/-- State after the initial `transform(hash.data, data, block_count)` call on
all complete 64-byte blocks. -/
def sha1_mainState (msg : List Nat) : SHA1State :=
  generic_sha1_transform sha1_IV msg (sha1_block_count msg.length)

/-- The trailing bytes after the complete blocks: `data += block_count * 64;
size -= block_count * 64;` followed by `memcpy(block, data, size)` copies
exactly `size` bytes starting at offset `block_count * 64`. -/
def sha1_tail (msg : List Nat) : List Nat :=
  (msg.drop (sha1_block_count msg.length * 64)).take
    (msg.length % M32 - sha1_block_count msg.length * 64)

/-- Sequential in-place byte writes into the scratch block (`memcpy` /
`memset` / `ustore64be` all write a run of bytes starting at an offset). -/
def writeBytes (blk : List Nat) (off : Nat) : List Nat → List Nat
  | [] => blk
  | b :: bs => writeBytes (blk.set off b) (off + 1) bs

/-- The final block or blocks built in the 64-byte scratch buffer
`u8 block[64]` and fed to the transform, in order: copy the tail, append
`0x80`; if the used size stays within 56 bytes, zero-fill up to offset 56,
store the big-endian bit length at 56..64 and transform once; otherwise
zero-fill to 64, transform, then zero the first 56 bytes of the same buffer,
store the bit length and transform again. -/
def sha1_final_blocks (tail : List Nat) (bits : Nat) : List (List Nat) :=
  let scratch := writeBytes (List.replicate 64 0) 0 tail
  let size := tail.length
  let scratch := scratch.set size 0x80
  let size := size + 1
  if size ≤ 56 then
    [writeBytes (writeBytes scratch size (List.replicate (56 - size) 0)) 56 (ustore64be bits)]
  else
    [writeBytes scratch size (List.replicate (64 - size) 0),
     writeBytes (writeBytes (writeBytes scratch size (List.replicate (64 - size) 0))
       0 (List.replicate 56 0)) 56 (ustore64be bits)]

/-- The five digest words of `mango::sha1`: IV, all complete blocks, then
the one or two final padded blocks, each fed through the generic backend.
The bit length stored in the padding is `u64(memory.size * 8)`, i.e. the
byte length times eight truncated to 64 bits. -/
def sha1Words (msg : List Nat) : SHA1State :=
  (sha1_final_blocks (sha1_tail msg) (msg.length * 8 % M64)).foldl
    (fun st b => generic_sha1_transform st b 1) (sha1_mainState msg)

/-- The four bytes of a `u32` as laid out in memory on a little-endian host,
least significant byte first. -/
def wordBytesLE (x : Nat) : List Nat :=
  [x % 256, x / 2 ^ 8 % 256, x / 2 ^ 16 % 256, x / 2 ^ 24 % 256]

/-- The four bytes of a `u32` as laid out in memory on a big-endian host,
most significant byte first. -/
def wordBytesBE (x : Nat) : List Nat :=
  [x / 2 ^ 24 % 256, x / 2 ^ 16 % 256, x / 2 ^ 8 % 256, x % 256]

/-- The 20 digest bytes as returned on a little-endian host: each state word
is byte-swapped once (`MANGO_LITTLE_ENDIAN` branch) and the five words are
then laid out in host (little-endian) byte order. -/
def sha1DigestBytesLE (msg : List Nat) : List Nat :=
  wordBytesLE (byteswap32 (sha1Words msg).a) ++ wordBytesLE (byteswap32 (sha1Words msg).b) ++
  wordBytesLE (byteswap32 (sha1Words msg).c) ++ wordBytesLE (byteswap32 (sha1Words msg).d) ++
  wordBytesLE (byteswap32 (sha1Words msg).e)

/-- The 20 digest bytes as returned on a big-endian host: no swap, the five
words laid out in host (big-endian) byte order. -/
def sha1DigestBytesBE (msg : List Nat) : List Nat :=
  wordBytesBE (sha1Words msg).a ++ wordBytesBE (sha1Words msg).b ++
  wordBytesBE (sha1Words msg).c ++ wordBytesBE (sha1Words msg).d ++
  wordBytesBE (sha1Words msg).e

/-- Lowercase hexadecimal digit for a value below 16. -/
def hexDigit (n : Nat) : Char :=
  if n < 10 then Char.ofNat (48 + n) else Char.ofNat (87 + n)

/-- Two lowercase hex characters per byte, in order. -/
def bytesHexChars : List Nat → List Char
  | [] => []
  | b :: bs => hexDigit (b / 16) :: hexDigit (b % 16) :: bytesHexChars bs

/-- The digest rendered as 40 lowercase hex characters. -/
def sha1Hex (msg : List Nat) : String :=
  String.mk (bytesHexChars (sha1DigestBytesLE msg))

/-- The bytes of an ASCII string, as hashing input. -/
def strBytes (s : String) : List Nat := s.data.map Char.toNat

/-- Componentwise 32-bit boundedness of a digest state. -/
def StBounded (s : SHA1State) : Prop :=
  s.a < M32 ∧ s.b < M32 ∧ s.c < M32 ∧ s.d < M32 ∧ s.e < M32

/-- Follows the spec's words: round function of rounds 0-19,
`F = (B and C) or ((not B) and D)` with `not` the 32-bit complement. -/
def spec_F1 (b c d : Nat) : Nat := (b &&& c) ||| ((b ^^^ (M32 - 1)) &&& d)

/-- Follows the spec's words: round function of rounds 20-39 and 60-79,
`F = B xor C xor D`. -/
def spec_F2 (b c d : Nat) : Nat := b ^^^ c ^^^ d

/-- Follows the spec's words: round function of rounds 40-59,
`F = (B and C) or (B and D) or (C and D)`. -/
def spec_F3 (b c d : Nat) : Nat := (b &&& c) ||| (b &&& d) ||| (c &&& d)

/-- Follows the spec's words: the round function and additive constant of
round `i`, by twenty-round stage. -/
def spec_FK (i : Nat) : (Nat → Nat → Nat → Nat) × Nat :=
  if i < 20 then (spec_F1, K1)
  else if i < 40 then (spec_F2, K2)
  else if i < 60 then (spec_F3, K3)
  else (spec_F2, K4)

/-- Follows the spec's words: one compression round computes
`E' = E + F + w[i] + K + rotate_left(A, 5)` (modulo `2 ^ 32`) and rotates the
quintet to `(E', A, rotate_left(B, 30), C, D)`. -/
def spec_step (f : Nat → Nat → Nat → Nat) (k : Nat) (s : SHA1State) (m : Nat) : SHA1State :=
  ⟨(s.e + (f s.b s.c s.d + m + k + u32_rol s.a 5)) % M32, s.a, u32_rol s.b 30, s.c, s.d⟩

/-- Five successive spec rounds with a fixed round function and constant. -/
def spec5 (f : Nat → Nat → Nat → Nat) (k : Nat) (s : SHA1State) (m0 m1 m2 m3 m4 : Nat) : SHA1State :=
  spec_step f k (spec_step f k (spec_step f k (spec_step f k (spec_step f k s m0) m1) m2) m3) m4

/-- Follows the spec's words: the eighty compression rounds, round `i` using
the stage function and constant `spec_FK i` and message word `w i`. -/
def spec_rounds (w : Nat → Nat) (s : SHA1State) : SHA1State :=
  (List.range 80).foldl (fun s i => spec_step (spec_FK i).1 (spec_FK i).2 s (w i)) s

/-- Spec-side counterpart of `roundGroupStep`: five spec rounds of the stage
that starts at schedule index `fi.2`. -/
def spec_groupStep (w : Nat → Nat) (s : SHA1State)
    (fi : (Nat → Nat → Nat → Nat → Nat → Nat → Nat × Nat) × Nat) : SHA1State :=
  spec5 (spec_FK fi.2).1 (spec_FK fi.2).2 s
    (w fi.2) (w (fi.2 + 1)) (w (fi.2 + 2)) (w (fi.2 + 3)) (w (fi.2 + 4))

/-- Follows the spec's words: the canonical one-at-a-time message-schedule
recurrence, `w[i] = m[i]` for `i < 16` and
`w[i] = rotate_left(w[i-3] xor w[i-8] xor w[i-14] xor w[i-16], 1)` above. -/
def wCanon (m : Nat → Nat) : Nat → Nat
  | i =>
    if _h : i < 16 then m i
    else u32_rol (wCanon m (i - 3) ^^^ wCanon m (i - 8) ^^^ wCanon m (i - 14) ^^^ wCanon m (i - 16)) 1
termination_by i => i
decreasing_by all_goals omega

/-- `Option`-returning big-endian load of schedule word `i`: `none` exactly
when one of the four byte reads `data + i * 4 .. i * 4 + 3` is out of
bounds. -/
def loadWordO (data : List Nat) (i : Nat) : Option Nat :=
  match data[i * 4]?, data[i * 4 + 1]?, data[i * 4 + 2]?, data[i * 4 + 3]? with
  | some b0, some b1, some b2, some b3 => some (uload32be b0 b1 b2 b3)
  | _, _, _, _ => none

/-- `Option`-returning load of the first `k` schedule words of a block. -/
def loadWordsO (data : List Nat) : Nat → Option (List Nat)
  | 0 => some []
  | k + 1 =>
    match loadWordsO data k, loadWordO data k with
    | some ws, some w => some (ws ++ [w])
    | _, _ => none

/-- Total embedding of `generic_sha1_transform` with `Option`-returning
indexing: every byte read of the schedule loads is explicit, and the
function returns `none` as soon as any read would fall outside `data`. -/
def generic_sha1_transformO (st : SHA1State) (data : List Nat) (blocks : Nat) : Option SHA1State :=
  match blocks with
  | 0 => some st
  | n + 1 =>
    match loadWordsO data 16 with
    | none => none
    | some ws =>
      let r := sha1_rounds
        ([16, 24, 32, 40, 48, 56, 64, 72].foldl scheduleStep
          (fun i => if i < 16 then ws.getD i 0 else 0)) st
      generic_sha1_transformO
        ⟨(st.a + r.a) % M32, (st.b + r.b) % M32, (st.c + r.c) % M32,
         (st.d + r.d) % M32, (st.e + r.e) % M32⟩
        (data.drop 64) n

/-- Follows the claim's words: the declarative SHA-1 padding layout.  One
block `tail ++ 0x80 ++ zeros-to-56 ++ bit-length` when `remaining + 1 <= 56`,
else the block `tail ++ 0x80 ++ zeros-to-64` followed by the block of 56
zero bytes and the bit length. -/
def pad_spec (tail : List Nat) (bits : Nat) : List (List Nat) :=
  if tail.length + 1 ≤ 56 then
    [tail ++ 0x80 :: (List.replicate (56 - (tail.length + 1)) 0 ++ ustore64be bits)]
  else
    [tail ++ 0x80 :: List.replicate (64 - (tail.length + 1)) 0,
     List.replicate 56 0 ++ ustore64be bits]

/-! ## Basic 32-bit bounds -/

theorem M32_pos : 0 < M32 := by norm_num [M32]

theorem mod_M32_lt (x : Nat) : x % M32 < M32 := Nat.mod_lt _ M32_pos

theorem u32_rol_lt (x n : Nat) (hx : x < M32) : u32_rol x n < M32 := by
  have h1 : (x <<< n) % M32 < 2 ^ 32 := mod_M32_lt _
  have h2 : x >>> (32 - n) < 2 ^ 32 := by
    calc x >>> (32 - n) ≤ x := by
          rw [Nat.shiftRight_eq_div_pow]; exact Nat.div_le_self _ _
      _ < 2 ^ 32 := hx
  exact Nat.or_lt_two_pow h1 h2

/-! ## The `u32_select` expressions versus the spec's round functions -/

theorem u32_select_ch (b c d : Nat) (hb : b < M32) (hd : d < M32) :
    u32_select b c d = spec_F1 b c d := by
  apply Nat.eq_of_testBit_eq
  intro i
  have hM : M32 - 1 = 2 ^ 32 - 1 := rfl
  simp only [u32_select, spec_F1, hM, Nat.testBit_xor, Nat.testBit_and, Nat.testBit_or,
    Nat.testBit_two_pow_sub_one]
  by_cases hi : i < 32
  · rw [decide_eq_true hi]
    cases b.testBit i <;> cases c.testBit i <;> cases d.testBit i <;> rfl
  · have hle : (2 : Nat) ^ 32 ≤ 2 ^ i := Nat.pow_le_pow_right (by norm_num) (Nat.le_of_not_lt hi)
    have hb0 : b.testBit i = false := Nat.testBit_lt_two_pow (lt_of_lt_of_le hb hle)
    have hd0 : d.testBit i = false := Nat.testBit_lt_two_pow (lt_of_lt_of_le hd hle)
    rw [decide_eq_false hi, hb0, hd0]
    cases c.testBit i <;> rfl

theorem u32_select_maj (b c d : Nat) :
    u32_select (b ^^^ c) d c = spec_F3 b c d := by
  apply Nat.eq_of_testBit_eq
  intro i
  simp only [u32_select, spec_F3, Nat.testBit_xor, Nat.testBit_and, Nat.testBit_or]
  cases b.testBit i <;> cases c.testBit i <;> cases d.testBit i <;> rfl

/-! ## The literal round groups versus the spec's rotating-quintet rounds -/

theorem round5_F2_spec (A B C D E m0 m1 m2 m3 m4 : Nat) :
    round5 F2 A B C D E m0 m1 m2 m3 m4 = spec5 spec_F2 K2 ⟨A, B, C, D, E⟩ m0 m1 m2 m3 m4 := by
  simp only [round5, F2, spec5, spec_step, spec_F2]

theorem round5_F4_spec (A B C D E m0 m1 m2 m3 m4 : Nat) :
    round5 F4 A B C D E m0 m1 m2 m3 m4 = spec5 spec_F2 K4 ⟨A, B, C, D, E⟩ m0 m1 m2 m3 m4 := by
  simp only [round5, F4, spec5, spec_step, spec_F2]

theorem round5_F3_spec (A B C D E m0 m1 m2 m3 m4 : Nat) :
    round5 F3 A B C D E m0 m1 m2 m3 m4 = spec5 spec_F3 K3 ⟨A, B, C, D, E⟩ m0 m1 m2 m3 m4 := by
  simp only [round5, F3, spec5, spec_step, u32_select_maj]

theorem round5_F1_spec (A B C D E m0 m1 m2 m3 m4 : Nat)
    (hA : A < M32) (hB : B < M32) (hC : C < M32) (hD : D < M32) (_hE : E < M32) :
    round5 F1 A B C D E m0 m1 m2 m3 m4 = spec5 spec_F1 K1 ⟨A, B, C, D, E⟩ m0 m1 m2 m3 m4 := by
  simp only [round5, F1, spec5, spec_step, u32_select_ch, hA, hB, hC, hD,
    u32_rol_lt, mod_M32_lt]

theorem round5_bounded (f : Nat → Nat → Nat → Nat → Nat → Nat → Nat × Nat)
    (hf1 : ∀ a b c d e m, (f a b c d e m).1 < M32)
    (hf2 : ∀ a b c d e m, b < M32 → (f a b c d e m).2 < M32)
    (A B C D E m0 m1 m2 m3 m4 : Nat) :
    StBounded (round5 f A B C D E m0 m1 m2 m3 m4) := by
  unfold round5
  rcases h0 : f A B C D E m0 with ⟨E1, B1⟩
  dsimp only
  rcases h1 : f E1 A B1 C D m1 with ⟨D1, A1⟩
  dsimp only
  rcases h2 : f D1 E1 A1 B1 C m2 with ⟨C1, E2⟩
  dsimp only
  rcases h3 : f C1 D1 E2 A1 B1 m3 with ⟨B2, D2⟩
  dsimp only
  rcases h4 : f B2 C1 D2 E2 A1 m4 with ⟨A2, C2⟩
  dsimp only
  have hE1 : E1 < M32 := by have := hf1 A B C D E m0; rw [h0] at this; exact this
  have hD1 : D1 < M32 := by have := hf1 E1 A B1 C D m1; rw [h1] at this; exact this
  have hC1 : C1 < M32 := by have := hf1 D1 E1 A1 B1 C m2; rw [h2] at this; exact this
  have hB2 : B2 < M32 := by have := hf1 C1 D1 E2 A1 B1 m3; rw [h3] at this; exact this
  have hA2 : A2 < M32 := by have := hf1 B2 C1 D2 E2 A1 m4; rw [h4] at this; exact this
  have hC2 : C2 < M32 := by have := hf2 B2 C1 D2 E2 A1 m4 hC1; rw [h4] at this; exact this
  have hD2 : D2 < M32 := by have := hf2 C1 D1 E2 A1 B1 m3 hD1; rw [h3] at this; exact this
  have hE2 : E2 < M32 := by have := hf2 D1 E1 A1 B1 C m2 hE1; rw [h2] at this; exact this
  exact ⟨hA2, hB2, hC2, hD2, hE2⟩

theorem round5_F1_bounded (A B C D E m0 m1 m2 m3 m4 : Nat) :
    StBounded (round5 F1 A B C D E m0 m1 m2 m3 m4) :=
  round5_bounded F1 (fun _ _ _ _ _ _ => mod_M32_lt _)
    (fun _ b _ _ _ _ hb => u32_rol_lt b 30 hb) A B C D E m0 m1 m2 m3 m4

theorem round5_F2_bounded (A B C D E m0 m1 m2 m3 m4 : Nat) :
    StBounded (round5 F2 A B C D E m0 m1 m2 m3 m4) :=
  round5_bounded F2 (fun _ _ _ _ _ _ => mod_M32_lt _)
    (fun _ b _ _ _ _ hb => u32_rol_lt b 30 hb) A B C D E m0 m1 m2 m3 m4

theorem round5_F3_bounded (A B C D E m0 m1 m2 m3 m4 : Nat) :
    StBounded (round5 F3 A B C D E m0 m1 m2 m3 m4) :=
  round5_bounded F3 (fun _ _ _ _ _ _ => mod_M32_lt _)
    (fun _ b _ _ _ _ hb => u32_rol_lt b 30 hb) A B C D E m0 m1 m2 m3 m4

theorem round5_F4_bounded (A B C D E m0 m1 m2 m3 m4 : Nat) :
    StBounded (round5 F4 A B C D E m0 m1 m2 m3 m4) :=
  round5_bounded F4 (fun _ _ _ _ _ _ => mod_M32_lt _)
    (fun _ b _ _ _ _ hb => u32_rol_lt b 30 hb) A B C D E m0 m1 m2 m3 m4

theorem foldl_rounds_spec (w : Nat → Nat) :
    ∀ L : List ((Nat → Nat → Nat → Nat → Nat → Nat → Nat × Nat) × Nat),
      (∀ fi ∈ L,
        (∀ A B C D E m0 m1 m2 m3 m4, A < M32 → B < M32 → C < M32 → D < M32 → E < M32 →
          round5 fi.1 A B C D E m0 m1 m2 m3 m4
            = spec5 (spec_FK fi.2).1 (spec_FK fi.2).2 ⟨A, B, C, D, E⟩ m0 m1 m2 m3 m4)
        ∧ (∀ A B C D E m0 m1 m2 m3 m4, StBounded (round5 fi.1 A B C D E m0 m1 m2 m3 m4))) →
      ∀ s : SHA1State, StBounded s →
        L.foldl (roundGroupStep w) s = L.foldl (spec_groupStep w) s := by
  intro L
  induction L with
  | nil => intro _ s _; rfl
  | cons fi L ih =>
    intro hL s hs
    have hhead := hL fi (List.mem_cons_self _ _)
    have htail := fun g hg => hL g (List.mem_cons_of_mem _ hg)
    obtain ⟨ha, hb, hc, hd, he⟩ := hs
    have hstep : roundGroupStep w s fi = spec_groupStep w s fi :=
      hhead.1 s.a s.b s.c s.d s.e _ _ _ _ _ ha hb hc hd he
    have hbnd : StBounded (roundGroupStep w s fi) :=
      hhead.2 s.a s.b s.c s.d s.e _ _ _ _ _
    calc (fi :: L).foldl (roundGroupStep w) s
        = L.foldl (roundGroupStep w) (roundGroupStep w s fi) := rfl
      _ = L.foldl (spec_groupStep w) (roundGroupStep w s fi) := ih htail _ hbnd
      _ = L.foldl (spec_groupStep w) (spec_groupStep w s fi) := by rw [hstep]
      _ = (fi :: L).foldl (spec_groupStep w) s := rfl

theorem spec_rounds_decomp (w : Nat → Nat) (s : SHA1State) :
    spec_rounds w s = roundTable.foldl (spec_groupStep w) s := rfl

theorem sha1_rounds_eq_spec (w : Nat → Nat) (s : SHA1State) (hs : StBounded s) :
    sha1_rounds w s = spec_rounds w s := by
  rw [spec_rounds_decomp]
  apply foldl_rounds_spec w roundTable ?_ s hs
  intro fi hfi
  fin_cases hfi <;>
    first
      | exact ⟨fun A B C D E m0 m1 m2 m3 m4 hA hB hC hD hE =>
                 round5_F1_spec A B C D E m0 m1 m2 m3 m4 hA hB hC hD hE,
               fun A B C D E m0 m1 m2 m3 m4 => round5_F1_bounded A B C D E m0 m1 m2 m3 m4⟩
      | exact ⟨fun A B C D E m0 m1 m2 m3 m4 _ _ _ _ _ =>
                 round5_F2_spec A B C D E m0 m1 m2 m3 m4,
               fun A B C D E m0 m1 m2 m3 m4 => round5_F2_bounded A B C D E m0 m1 m2 m3 m4⟩
      | exact ⟨fun A B C D E m0 m1 m2 m3 m4 _ _ _ _ _ =>
                 round5_F3_spec A B C D E m0 m1 m2 m3 m4,
               fun A B C D E m0 m1 m2 m3 m4 => round5_F3_bounded A B C D E m0 m1 m2 m3 m4⟩
      | exact ⟨fun A B C D E m0 m1 m2 m3 m4 _ _ _ _ _ =>
                 round5_F4_spec A B C D E m0 m1 m2 m3 m4,
               fun A B C D E m0 m1 m2 m3 m4 => round5_F4_bounded A B C D E m0 m1 m2 m3 m4⟩

/-! ## The unrolled schedule expansion versus the canonical recurrence -/

theorem updFn_apply_eq (w : Nat → Nat) (i v : Nat) : updFn w i v i = v := by
  simp [updFn]

theorem updFn_apply_ne (w : Nat → Nat) (i v j : Nat) (h : j ≠ i) : updFn w i v j = w j := by
  simp [updFn, h]

theorem wCanon_lt16 (m : Nat → Nat) (i : Nat) (h : i < 16) : wCanon m i = m i := by
  rw [wCanon]
  exact dif_pos h

theorem wCanon_ge16 (m : Nat → Nat) (i : Nat) (h : 16 ≤ i) :
    wCanon m i
      = u32_rol (wCanon m (i - 3) ^^^ wCanon m (i - 8) ^^^ wCanon m (i - 14) ^^^ wCanon m (i - 16)) 1 := by
  rw [wCanon]
  exact dif_neg (by omega)

theorem expandAt_spec (w m : Nat → Nat) (k : Nat) (h16 : 16 ≤ k)
    (hw : ∀ j, j < k → w j = wCanon m j) :
    ∀ j, j < k + 1 → expandAt w k j = wCanon m j := by
  intro j hj
  by_cases hjk : j = k
  · subst hjk
    unfold expandAt
    rw [updFn_apply_eq]
    rw [hw (j - 3) (by omega), hw (j - 8) (by omega), hw (j - 14) (by omega),
      hw (j - 16) (by omega)]
    exact (wCanon_ge16 m j h16).symm
  · unfold expandAt
    rw [updFn_apply_ne _ _ _ _ hjk]
    exact hw j (by omega)

theorem scheduleStep_spec (w m : Nat → Nat) (i : Nat) (h16 : 16 ≤ i)
    (hw : ∀ j, j < i → w j = wCanon m j) :
    ∀ j, j < i + 8 → scheduleStep w i j = wCanon m j := by
  intro j hj
  unfold scheduleStep
  exact expandAt_spec _ m (i + 7) (by omega)
    (expandAt_spec _ m (i + 6) (by omega)
      (expandAt_spec _ m (i + 5) (by omega)
        (expandAt_spec _ m (i + 4) (by omega)
          (expandAt_spec _ m (i + 3) (by omega)
            (expandAt_spec _ m (i + 2) (by omega)
              (expandAt_spec _ m (i + 1) (by omega)
                (expandAt_spec w m (i + 0) (by omega) hw))))))) j hj

theorem schedule_spec (data : List Nat) :
    ∀ j, j < 80 → schedule data j = wCanon (loadWord data) j := by
  have base : ∀ j, j < 16 →
      (fun i => if i < 16 then loadWord data i else 0) j = wCanon (loadWord data) j := by
    intro j hj
    simp only [hj, if_true]
    exact (wCanon_lt16 _ j hj).symm
  unfold schedule
  simp only [List.foldl_cons, List.foldl_nil]
  exact fun j hj =>
    scheduleStep_spec _ _ 72 (by omega)
      (scheduleStep_spec _ _ 64 (by omega)
        (scheduleStep_spec _ _ 56 (by omega)
          (scheduleStep_spec _ _ 48 (by omega)
            (scheduleStep_spec _ _ 40 (by omega)
              (scheduleStep_spec _ _ 32 (by omega)
                (scheduleStep_spec _ _ 24 (by omega)
                  (scheduleStep_spec _ _ 16 (by omega) base))))))) j hj

/-! ## Transform: identity at zero blocks, boundedness, block splitting -/

theorem transform_zero (st : SHA1State) (data : List Nat) :
    generic_sha1_transform st data 0 = st := rfl

theorem transform_succ (st : SHA1State) (data : List Nat) (n : Nat) :
    generic_sha1_transform st data (n + 1)
      = generic_sha1_transform
          ⟨(st.a + (sha1_rounds (schedule data) st).a) % M32,
           (st.b + (sha1_rounds (schedule data) st).b) % M32,
           (st.c + (sha1_rounds (schedule data) st).c) % M32,
           (st.d + (sha1_rounds (schedule data) st).d) % M32,
           (st.e + (sha1_rounds (schedule data) st).e) % M32⟩
          (data.drop 64) n := rfl

theorem transform_bounded :
    ∀ (blocks : Nat) (st : SHA1State) (data : List Nat),
      StBounded st → StBounded (generic_sha1_transform st data blocks) := by
  intro blocks
  induction blocks with
  | zero => intro st data h; exact h
  | succ n ih =>
    intro st data _h
    rw [transform_succ]
    exact ih _ _ ⟨mod_M32_lt _, mod_M32_lt _, mod_M32_lt _, mod_M32_lt _, mod_M32_lt _⟩

theorem getD_of_lt (l : List Nat) (j : Nat) (h : j < l.length) : l.getD j 0 = l[j] := by
  simp [List.getD_eq_getElem?_getD, List.getElem?_eq_getElem h]

theorem loadWord_take (data : List Nat) (N i : Nat) (h : i * 4 + 3 < N) :
    loadWord (data.take N) i = loadWord data i := by
  have hg : ∀ j, j < N → (data.take N).getD j 0 = data.getD j 0 := by
    intro j hj
    simp only [List.getD_eq_getElem?_getD]
    rw [List.getElem?_take_of_lt hj]
  unfold loadWord
  rw [hg _ (by omega), hg _ (by omega), hg _ (by omega), hg _ h]

theorem schedule_take (data : List Nat) (N : Nat) (h : 64 ≤ N) :
    schedule (data.take N) = schedule data := by
  unfold schedule
  have hbase : (fun i => if i < 16 then loadWord (data.take N) i else 0)
      = (fun i => if i < 16 then loadWord data i else 0) := by
    funext i
    by_cases hi : i < 16
    · simp only [hi, if_true]
      exact loadWord_take data N i (by omega)
    · simp only [hi, if_false]
  rw [hbase]

theorem transform_split (m : Nat) :
    ∀ (n : Nat) (st : SHA1State) (data : List Nat),
      generic_sha1_transform st data (m + n)
        = generic_sha1_transform (generic_sha1_transform st (data.take (64 * m)) m)
            (data.drop (64 * m)) n := by
  induction m with
  | zero =>
    intro n st data
    rw [Nat.zero_add, Nat.mul_zero, List.drop_zero, transform_zero]
  | succ m ih =>
    intro n st data
    have e1 : m + 1 + n = (m + n) + 1 := by omega
    rw [e1, transform_succ, transform_succ]
    rw [schedule_take data (64 * (m + 1)) (by omega)]
    have hTake : (data.take (64 * (m + 1))).drop 64 = (data.drop 64).take (64 * m) := by
      rw [List.take_drop, show 64 + 64 * m = 64 * (m + 1) from by ring]
    have hDrop : data.drop (64 * (m + 1)) = (data.drop 64).drop (64 * m) := by
      rw [List.drop_drop, show 64 + 64 * m = 64 * (m + 1) from by ring]
    rw [hTake, hDrop]
    exact ih n _ (data.drop 64)

/-! ## The `Option`-returning transform never reads out of bounds -/

theorem loadWordO_eq (data : List Nat) (i : Nat) (h : i * 4 + 3 < data.length) :
    loadWordO data i = some (loadWord data i) := by
  unfold loadWordO loadWord
  rw [List.getElem?_eq_getElem (show i * 4 < data.length by omega),
      List.getElem?_eq_getElem (show i * 4 + 1 < data.length by omega),
      List.getElem?_eq_getElem (show i * 4 + 2 < data.length by omega),
      List.getElem?_eq_getElem h]
  dsimp only
  rw [getD_of_lt data (i * 4) (by omega), getD_of_lt data (i * 4 + 1) (by omega),
      getD_of_lt data (i * 4 + 2) (by omega), getD_of_lt data (i * 4 + 3) h]

theorem loadWordsO_eq (data : List Nat) :
    ∀ k, k * 4 ≤ data.length →
      loadWordsO data k = some ((List.range k).map (loadWord data)) := by
  intro k
  induction k with
  | zero => intro _; rfl
  | succ k ih =>
    intro h
    show (match loadWordsO data k, loadWordO data k with
          | some ws, some w => some (ws ++ [w])
          | _, _ => none) = _
    rw [ih (by omega), loadWordO_eq data k (by omega)]
    dsimp only
    rw [List.range_succ, List.map_append]
    rfl

theorem transformO_eq :
    ∀ (blocks : Nat) (st : SHA1State) (data : List Nat),
      blocks * 64 ≤ data.length →
      generic_sha1_transformO st data blocks = some (generic_sha1_transform st data blocks) := by
  intro blocks
  induction blocks with
  | zero => intro st data _; rfl
  | succ n ih =>
    intro st data h
    show (match loadWordsO data 16 with
          | none => none
          | some ws =>
            generic_sha1_transformO
              ⟨(st.a + (sha1_rounds ([16, 24, 32, 40, 48, 56, 64, 72].foldl scheduleStep
                  (fun i => if i < 16 then ws.getD i 0 else 0)) st).a) % M32,
               (st.b + (sha1_rounds ([16, 24, 32, 40, 48, 56, 64, 72].foldl scheduleStep
                  (fun i => if i < 16 then ws.getD i 0 else 0)) st).b) % M32,
               (st.c + (sha1_rounds ([16, 24, 32, 40, 48, 56, 64, 72].foldl scheduleStep
                  (fun i => if i < 16 then ws.getD i 0 else 0)) st).c) % M32,
               (st.d + (sha1_rounds ([16, 24, 32, 40, 48, 56, 64, 72].foldl scheduleStep
                  (fun i => if i < 16 then ws.getD i 0 else 0)) st).d) % M32,
               (st.e + (sha1_rounds ([16, 24, 32, 40, 48, 56, 64, 72].foldl scheduleStep
                  (fun i => if i < 16 then ws.getD i 0 else 0)) st).e) % M32⟩
              (data.drop 64) n) = _
    rw [loadWordsO_eq data 16 (by omega)]
    dsimp only
    have hbase : (fun i => if i < 16 then ((List.range 16).map (loadWord data)).getD i 0 else 0)
        = (fun i => if i < 16 then loadWord data i else 0) := by
      funext i
      by_cases hi : i < 16
      · simp only [hi, if_true, List.getD_eq_getElem?_getD, List.getElem?_map,
          List.getElem?_range hi]
        rfl
      · simp only [hi, if_false]
    rw [hbase, transform_succ]
    exact ih _ _ (by simp only [List.length_drop]; omega)

/-! ## Scratch-block writes versus the declarative padding layout -/

theorem drop_replicate (i n : Nat) :
    (List.replicate n (0 : Nat)).drop i = List.replicate (n - i) 0 := by
  induction n generalizing i with
  | zero => simp
  | succ n ih =>
    cases i with
    | zero => simp
    | succ i => simp [List.replicate_succ, ih i, Nat.succ_sub_succ]

theorem take_append_of_le (l2 : List Nat) :
    ∀ (l1 : List Nat) (n : Nat), n ≤ l1.length → (l1 ++ l2).take n = l1.take n := by
  intro l1
  induction l1 with
  | nil =>
    intro n h
    simp at h
    simp [h]
  | cons a l ih =>
    intro n h
    cases n with
    | zero => rfl
    | succ n =>
      simp only [List.cons_append, List.take_succ_cons]
      rw [ih n (by simp at h; omega)]

theorem drop_append_of_le (l2 : List Nat) :
    ∀ (l1 : List Nat) (n : Nat), n ≤ l1.length → (l1 ++ l2).drop n = l1.drop n ++ l2 := by
  intro l1
  induction l1 with
  | nil =>
    intro n h
    simp at h
    simp [h]
  | cons a l ih =>
    intro n h
    cases n with
    | zero => rfl
    | succ n =>
      simp only [List.cons_append, List.drop_succ_cons]
      exact ih n (by simp at h; omega)

theorem drop_append_plus (l1 l2 : List Nat) (k : Nat) :
    (l1 ++ l2).drop (l1.length + k) = l2.drop k := by
  induction l1 with
  | nil => simp
  | cons a l ih =>
    simp only [List.cons_append, List.length_cons]
    rw [show l.length + 1 + k = (l.length + k) + 1 from by omega, List.drop_succ_cons, ih]

theorem writeBytes_eq (bs : List Nat) :
    ∀ (blk : List Nat) (off : Nat), off + bs.length ≤ blk.length →
      writeBytes blk off bs = blk.take off ++ bs ++ blk.drop (off + bs.length) := by
  induction bs with
  | nil =>
    intro blk off h
    show blk = _
    simp [List.take_append_drop]
  | cons b bs ih =>
    intro blk off h
    simp only [List.length_cons] at h
    show writeBytes (blk.set off b) (off + 1) bs = _
    rw [ih (blk.set off b) (off + 1) (by simp only [List.length_set]; omega)]
    have hofflt : off < blk.length := by omega
    rw [List.set_eq_take_cons_drop b hofflt]
    have hlen : (blk.take off).length = off := by
      simp only [List.length_take]
      omega
    rw [← List.singleton_append, ← List.append_assoc]
    have hlen2 : (blk.take off ++ [b]).length = off + 1 := by simp [hlen]
    rw [take_append_of_le _ _ _ (by omega), List.take_of_length_le (Nat.le_of_eq hlen2)]
    rw [show off + 1 + bs.length = (blk.take off ++ [b]).length + bs.length from by rw [hlen2],
        drop_append_plus]
    rw [List.drop_drop]
    simp only [List.append_assoc, List.singleton_append]
    rw [show off + 1 + bs.length = off + (bs.length + 1) from by omega]
    simp only [List.length_cons]

theorem scratch_set (tail : List Nat) (h : tail.length < 64) :
    (writeBytes (List.replicate 64 0) 0 tail).set tail.length 0x80
      = tail ++ 0x80 :: List.replicate (63 - tail.length) 0 := by
  rw [writeBytes_eq tail (List.replicate 64 0) 0 (by simp; omega)]
  simp only [List.take_zero, List.nil_append, Nat.zero_add]
  rw [drop_replicate]
  rw [List.set_eq_take_cons_drop _ (by simp; omega)]
  rw [take_append_of_le _ _ _ (Nat.le_refl _), List.take_length]
  rw [show tail.length + 1 = tail.length + 1 from rfl, drop_append_plus, drop_replicate]
  rw [show 64 - tail.length - 1 = 63 - tail.length from by omega]

theorem final_blocks_eq (tail : List Nat) (bits : Nat) (h : tail.length < 64) :
    sha1_final_blocks tail bits = pad_spec tail bits := by
  simp only [sha1_final_blocks, pad_spec]
  rw [scratch_set tail h]
  by_cases hle : tail.length + 1 ≤ 56
  · rw [if_pos hle, if_pos hle]
    have hinner :
        writeBytes (tail ++ 0x80 :: List.replicate (63 - tail.length) 0) (tail.length + 1)
            (List.replicate (56 - (tail.length + 1)) 0)
          = (tail ++ [0x80]) ++ (List.replicate (55 - tail.length) 0 ++ List.replicate 8 0) := by
      rw [writeBytes_eq _ _ _ (by simp; omega)]
      rw [← List.singleton_append, ← List.append_assoc]
      rw [take_append_of_le _ _ _ (by simp), List.take_of_length_le (by simp)]
      rw [show tail.length + 1 + (List.replicate (56 - (tail.length + 1)) (0 : Nat)).length
            = (tail ++ [0x80]).length + (55 - tail.length) from by simp]
      rw [drop_append_plus, drop_replicate]
      rw [show 63 - tail.length - (55 - tail.length) = 8 from by omega,
          show 56 - (tail.length + 1) = 55 - tail.length from by omega]
      simp [List.append_assoc]
    have houter :
        writeBytes ((tail ++ [0x80]) ++ (List.replicate (55 - tail.length) 0 ++ List.replicate 8 0))
            56 (ustore64be bits)
          = (tail ++ [0x80]) ++ (List.replicate (55 - tail.length) 0 ++ ustore64be bits) := by
      rw [writeBytes_eq _ _ _ (by simp [ustore64be]; omega)]
      rw [← List.append_assoc]
      rw [take_append_of_le _ _ _ (by simp; omega), List.take_of_length_le (by simp; omega)]
      rw [show 56 + (ustore64be bits).length
            = ((tail ++ [0x80]) ++ List.replicate (55 - tail.length) 0).length + 8 from by
          simp [ustore64be]; omega]
      rw [drop_append_plus, drop_replicate]
      simp [List.append_assoc]
    rw [hinner, houter]
    rw [show 56 - (tail.length + 1) = 55 - tail.length from by omega]
    simp [List.append_assoc]
  · rw [if_neg hle, if_neg hle]
    have hb1 :
        writeBytes (tail ++ 0x80 :: List.replicate (63 - tail.length) 0) (tail.length + 1)
            (List.replicate (64 - (tail.length + 1)) 0)
          = tail ++ 0x80 :: List.replicate (63 - tail.length) 0 := by
      rw [writeBytes_eq _ _ _ (by simp; omega)]
      rw [← List.singleton_append, ← List.append_assoc]
      rw [take_append_of_le _ _ _ (by simp), List.take_of_length_le (by simp)]
      rw [show tail.length + 1 + (List.replicate (64 - (tail.length + 1)) (0 : Nat)).length
            = (tail ++ [0x80]).length + (63 - tail.length) from by simp]
      rw [drop_append_plus, drop_replicate]
      rw [show 64 - (tail.length + 1) = 63 - tail.length from by omega,
          show 63 - tail.length - (63 - tail.length) = 0 from by omega]
      simp [List.append_assoc]
    have hz :
        writeBytes (tail ++ 0x80 :: List.replicate (63 - tail.length) 0) 0 (List.replicate 56 0)
          = List.replicate 56 0 ++ (tail.drop 56 ++ 0x80 :: List.replicate (63 - tail.length) 0) := by
      rw [writeBytes_eq _ _ _ (by simp; omega)]
      simp only [List.take_zero, List.nil_append, Nat.zero_add, List.length_replicate]
      rw [drop_append_of_le _ _ _ (by omega)]
    have hb2 :
        writeBytes
            (List.replicate 56 0 ++ (tail.drop 56 ++ 0x80 :: List.replicate (63 - tail.length) 0))
            56 (ustore64be bits)
          = List.replicate 56 0 ++ ustore64be bits := by
      rw [writeBytes_eq _ _ _ (by simp [ustore64be]; omega)]
      rw [take_append_of_le _ _ _ (by simp), List.take_of_length_le (by simp)]
      rw [show 56 + (ustore64be bits).length = (List.replicate 56 (0 : Nat)).length + 8 from by
          simp [ustore64be]]
      rw [drop_append_plus]
      rw [List.drop_eq_nil_of_le (by simp; omega)]
      simp
    rw [hb1, hz, hb2]
    rw [show 64 - (tail.length + 1) = 63 - tail.length from by omega]

/-! ## Digest encoding -/

theorem bytes_pack_mod (a b c d : Nat) (ha : a < 256) (hb : b < 256) (hc : c < 256)
    (hd : d < 256) :
    (a * 16777216 + b * 65536 + c * 256 + d) % 256 = d
    ∧ (a * 16777216 + b * 65536 + c * 256 + d) / 256 % 256 = c
    ∧ (a * 16777216 + b * 65536 + c * 256 + d) / 65536 % 256 = b
    ∧ (a * 16777216 + b * 65536 + c * 256 + d) / 16777216 % 256 = a := by
  refine ⟨?_, ?_, ?_, ?_⟩ <;> omega

theorem byteswap_le_eq_be (x : Nat) : wordBytesLE (byteswap32 x) = wordBytesBE x := by
  have e24 : (2 : Nat) ^ 24 = 16777216 := by norm_num
  have e16 : (2 : Nat) ^ 16 = 65536 := by norm_num
  have e8 : (2 : Nat) ^ 8 = 256 := by norm_num
  have h256 : (0 : Nat) < 256 := by norm_num
  obtain ⟨g1, g2, g3, g4⟩ :=
    bytes_pack_mod (x % 256) (x / 256 % 256) (x / 65536 % 256) (x / 16777216 % 256)
      (Nat.mod_lt _ h256) (Nat.mod_lt _ h256) (Nat.mod_lt _ h256) (Nat.mod_lt _ h256)
  simp only [wordBytesLE, wordBytesBE, byteswap32, e24, e16, e8]
  rw [g1, g2, g3, g4]

theorem digest_LE_eq_BE (msg : List Nat) : sha1DigestBytesLE msg = sha1DigestBytesBE msg := by
  unfold sha1DigestBytesLE sha1DigestBytesBE
  rw [byteswap_le_eq_be, byteswap_le_eq_be, byteswap_le_eq_be, byteswap_le_eq_be,
    byteswap_le_eq_be]

theorem digest_length (msg : List Nat) : (sha1DigestBytesLE msg).length = 20 := by
  simp [sha1DigestBytesLE, wordBytesLE]

/-! ## Claim theorems -/

set_option maxRecDepth 4000000 in
/-- C1: the one-shot `sha1` maps the three NIST test inputs to exactly the
specified digests, rendered as 40 lowercase hex characters of the 20 output
bytes. -/
theorem C1_nist_vectors :
    sha1Hex (strBytes "") = "da39a3ee5e6b4b0d3255bfef95601890afd80709"
    ∧ sha1Hex (strBytes "abc") = "a9993e364706816aba3e25717850c26c9cd0d89d"
    ∧ sha1Hex (strBytes "abcdbcdecdefdefgefghfghighijhijkijkljklmklmnlmnomnopnopq")
        = "84983e441c3bd26ebaae4aa1f95129e5e54670f1" :=
  ⟨by decide, by decide, by decide⟩

/-- C2: the `u32_select`-based expressions of `F1` and `F3` equal the spec's
round functions `Ch` and `Maj` on 32-bit inputs, and the 80 literal round
calls of the generic backend compute exactly the spec's per-round recurrence
`E' = E + F + w[i] + K + rotate_left(A, 5)` with the quintet rotation
`(E', A, rotate_left(B, 30), C, D)` and the stage functions/constants
`spec_FK`. -/
theorem C2_round_structure :
    (∀ b c d : Nat, b < M32 → d < M32 → u32_select b c d = spec_F1 b c d)
    ∧ (∀ b c d : Nat, u32_select (b ^^^ c) d c = spec_F3 b c d)
    ∧ (∀ (w : Nat → Nat) (s : SHA1State), StBounded s → sha1_rounds w s = spec_rounds w s) :=
  ⟨fun b c d hb hd => u32_select_ch b c d hb hd,
   fun b c d => u32_select_maj b c d,
   fun w s hs => sha1_rounds_eq_spec w s hs⟩

theorem C2_round_structure_witness :
    ((3 : Nat) < M32 ∧ (7 : Nat) < M32 ∧ u32_select 3 5 7 = spec_F1 3 5 7)
    ∧ u32_select (3 ^^^ 5) 7 5 = spec_F3 3 5 7
    ∧ (StBounded ⟨1, 2, 3, 4, 5⟩
       ∧ sha1_rounds (fun _ => 0) ⟨1, 2, 3, 4, 5⟩ = spec_rounds (fun _ => 0) ⟨1, 2, 3, 4, 5⟩) :=
  ⟨⟨by decide, by decide, C2_round_structure.1 3 5 7 (by decide) (by decide)⟩,
   C2_round_structure.2.1 3 5 7,
   ⟨⟨by decide, by decide, by decide, by decide, by decide⟩,
    C2_round_structure.2.2 (fun _ => 0) ⟨1, 2, 3, 4, 5⟩
      ⟨by decide, by decide, by decide, by decide, by decide⟩⟩⟩

/-- C3: the 8-way unrolled schedule expansion of the generic backend agrees,
on every index below 80, with the canonical one-at-a-time recurrence over the
big-endian loaded words (`w[i] = rotate_left(w[i-3] xor w[i-8] xor w[i-14]
xor w[i-16], 1)` for `16 <= i < 80`). -/
theorem C3_schedule_recurrence (data : List Nat) (i : Nat) (h : i < 80) :
    schedule data i = wCanon (loadWord data) i :=
  schedule_spec data i h

theorem C3_schedule_recurrence_witness :
    79 < 80 ∧ schedule [] 79 = wCanon (loadWord []) 79 :=
  ⟨by decide, C3_schedule_recurrence [] 79 (by decide)⟩

/-- C4: finalization builds exactly the declarative SHA-1 padding: the tail
bytes, one `0x80` byte, zero fill, and the big-endian 64-bit bit length at
offsets 56..64 — one final block when `remaining + 1 <= 56`, otherwise a
zero-filled full block followed by a second block of 56 zero bytes plus the
bit length. -/
theorem C4_padding (tail : List Nat) (bits : Nat) (h : tail.length < 64) :
    sha1_final_blocks tail bits = pad_spec tail bits
    ∧ (sha1_final_blocks tail bits).length = (if tail.length + 1 ≤ 56 then 1 else 2) := by
  refine ⟨final_blocks_eq tail bits h, ?_⟩
  rw [final_blocks_eq tail bits h]
  unfold pad_spec
  by_cases hle : tail.length + 1 ≤ 56
  · simp [hle]
  · simp [hle]

theorem C4_padding_witness :
    (List.replicate 60 (7 : Nat)).length < 64
    ∧ (sha1_final_blocks (List.replicate 60 7) 0 = pad_spec (List.replicate 60 7) 0
       ∧ (sha1_final_blocks (List.replicate 60 7) 0).length
           = (if (List.replicate 60 (7 : Nat)).length + 1 ≤ 56 then 1 else 2)) :=
  ⟨by decide, C4_padding (List.replicate 60 7) 0 (by decide)⟩

/-- C5: evaluation of the code at the failing input.  `mango::sha1` truncates
the buffer length to `u32` (`u32 size = u32(memory.size)`), so for a buffer
of `2 ^ 32` bytes it feeds `(2 ^ 32 mod 2 ^ 32) / 64 = 0` complete blocks to
the backend, while the claim (all of `floor(L / 64)` blocks are fed; no
well-formed length is mishandled) requires `2 ^ 32 / 64 = 67108864` blocks. -/
theorem C5_block_count_truncation :
    sha1_block_count (2 ^ 32) = 0 ∧ 2 ^ 32 / 64 = 67108864 := by
  constructor
  · show 2 ^ 32 % M32 / 64 = 0
    norm_num [M32]
  · norm_num

/-- C6: digest encoding runs exactly once after all blocks: the little-endian
host path (one byteswap per state word, then host byte order) emits the same
20 bytes as the big-endian host path, namely the five final state words in
big-endian byte order, for every input. -/
theorem C6_digest_encoding (msg : List Nat) :
    sha1DigestBytesLE msg = sha1DigestBytesBE msg
    ∧ (sha1DigestBytesLE msg).length = 20
    ∧ sha1DigestBytesBE msg
        = wordBytesBE (sha1Words msg).a ++ wordBytesBE (sha1Words msg).b
          ++ wordBytesBE (sha1Words msg).c ++ wordBytesBE (sha1Words msg).d
          ++ wordBytesBE (sha1Words msg).e :=
  ⟨digest_LE_eq_BE msg, digest_length msg, rfl⟩

/-- C7: processing `m + n` blocks in one backend call equals processing the
first `m` blocks and then the remaining `n` blocks on the carried-forward
state, for every starting state, byte sequence and block counts. -/
theorem C7_block_splitting (st : SHA1State) (data : List Nat) (m n : Nat) :
    generic_sha1_transform st data (m + n)
      = generic_sha1_transform (generic_sha1_transform st (data.take (64 * m)) m)
          (data.drop (64 * m)) n :=
  transform_split m n st data

/-- C8: `sha1` is a pure function of the buffer contents: equal buffers hash
to bit-identical digests, and the input buffer is unchanged (the embedding
consumes it by value; the source takes `ConstMemory`, immutable memory). -/
theorem C8_purity (msg1 msg2 : List Nat) (h : msg1 = msg2) :
    sha1DigestBytesLE msg1 = sha1DigestBytesLE msg2 ∧ msg1 = msg2 :=
  ⟨congrArg sha1DigestBytesLE h, h⟩

theorem C8_purity_witness :
    ([3, 1, 4] : List Nat) = [3, 1, 4]
    ∧ (sha1DigestBytesLE [3, 1, 4] = sha1DigestBytesLE [3, 1, 4]
       ∧ ([3, 1, 4] : List Nat) = [3, 1, 4]) :=
  ⟨rfl, C8_purity [3, 1, 4] [3, 1, 4] rfl⟩

/-- C9: when the input holds `block_count * 64` bytes, every schedule-load
read of the generic backend is in bounds: the `Option`-returning embedding
never takes its out-of-bounds branch and returns exactly the total
transform's result. -/
theorem C9_no_oob_reads (st : SHA1State) (data : List Nat) (blocks : Nat)
    (h : blocks * 64 ≤ data.length) :
    generic_sha1_transformO st data blocks = some (generic_sha1_transform st data blocks) :=
  transformO_eq blocks st data h

theorem C9_no_oob_reads_witness :
    1 * 64 ≤ (List.replicate 64 (0 : Nat)).length
    ∧ generic_sha1_transformO sha1_IV (List.replicate 64 0) 1
        = some (generic_sha1_transform sha1_IV (List.replicate 64 0) 1) :=
  ⟨by decide, C9_no_oob_reads sha1_IV (List.replicate 64 0) 1 (by decide)⟩

/-- C10: a transform call with zero blocks is the identity on the digest
state, and consequently for buffers shorter than 64 bytes the initial
full-blocks call of `sha1` leaves the IV unchanged. -/
theorem C10_zero_blocks_identity :
    (∀ (st : SHA1State) (data : List Nat), generic_sha1_transform st data 0 = st)
    ∧ ∀ msg : List Nat, msg.length < 64 → sha1_mainState msg = sha1_IV := by
  constructor
  · intro st data
    rfl
  · intro msg h
    unfold sha1_mainState sha1_block_count
    have hlt : msg.length < M32 := lt_trans h (by norm_num [M32])
    rw [Nat.mod_eq_of_lt hlt, Nat.div_eq_of_lt h]
    rfl

theorem C10_zero_blocks_identity_witness :
    ([1, 2, 3] : List Nat).length < 64 ∧ sha1_mainState [1, 2, 3] = sha1_IV :=
  ⟨by decide, C10_zero_blocks_identity.2 [1, 2, 3] (by decide)⟩

end Mango
